import Mathlib

/-!
# Gemini: result scanning, value-space sizes, counters and generator setup

A shallow embedding of

* `pkg/store/mv/result.go`  (`initResult`, `GetResult`, `GetResultWithVerCheck`),
* `pkg/typedef/types.go`    (`MapType`, `CounterType`, `goCQLTypeMap`),
* `cmd/gemini/generators.go` (`createGenerators`),

followed by the theorems about them.  A Go panic is the result `none`.
-/

namespace Gemini

/-! ## gocql column metadata -/

/-- The `gocql.Type` tags used as keys of `goCQLTypeMap`. -/
inductive GoCQLType
  | TypeAscii | TypeBigInt | TypeBlob | TypeBoolean | TypeDate | TypeDecimal
  | TypeDouble | TypeDuration | TypeFloat | TypeInet | TypeInt | TypeSmallInt
  | TypeText | TypeTime | TypeTimestamp | TypeTimeUUID | TypeTinyInt | TypeUUID
  | TypeVarchar | TypeVarint
  | TypeList | TypeMap | TypeSet | TypeTuple | TypeUDT
  | TypeCounter
  deriving DecidableEq, Repr

/-- A non-nil `gocql.TypeInfo` value.  `tuple` is `gocql.TupleTypeInfo` (its
`NativeType` header and `Elems`); every other implementation is represented by
its `NativeType` header `(proto, typ, custom)`, the only part the translated code
reads. -/
inductive TypeInfo
  | native (proto : Nat) (typ : GoCQLType) (custom : String)
  | tuple (proto : Nat) (typ : GoCQLType) (custom : String) (Elems : List TypeInfo)

/-- The method `TypeInfo.Version()`: the protocol version of the header. -/
def TypeInfo.Version : TypeInfo → Nat
  | .native proto _ _ => proto
  | .tuple proto _ _ _ => proto

/-- The struct `gocql.ColumnInfo`, restricted to the fields `initResult` reads. -/
structure ColumnInfo where
  Name : String
  TypeInfo : TypeInfo

/-! ## Go slices with checked indexing -/

/-- The assignment `xs[i] = v`; out of range panics. -/
def setIdx {α : Type} (xs : List α) (i : Nat) (v : α) : Option (List α) :=
  if i < xs.length then some (xs.set i v) else none

/-- The call `make([]T, n)` for a signed length `n` with zero value `z`; a
negative length panics. -/
def makeSlice {α : Type} (z : α) (n : Int) : Option (List α) :=
  if 0 ≤ n then some (List.replicate n.toNat z) else none

/-! ## `pkg/store/mv/result.go` -/

/-- One result row `RowMV`: a slice of cells, each holding the scanned payload
once a `Scan` has written through its pointer.  The zero value (nil) is `[]`. -/
abbrev RowMV := List (Option Nat)

/-- The slice `RowsMV`. -/
abbrev RowsMV := List RowMV

/-- The struct `Result`.  `Types` is a slice of interface values, `none` being
the nil interface. -/
structure Result where
  Types : List (Option TypeInfo)
  Names : List String
  Rows : RowsMV

/-- The zero value `Result{}`. -/
def Result.zero : Result := { Types := [], Names := [], Rows := [] }

/-- The method `LenColumns`. -/
def Result.LenColumns (d : Result) : Nat := d.Names.length

/-- The method `LenRows`. -/
def Result.LenRows (d : Result) : Nat := d.Rows.length

/-- The formatting `fmt.Sprintf("%s.t[%d]", name, i)`. -/
def tupleElemName (name : String) (i : Nat) : String :=
  name ++ ".t[" ++ toString i ++ "]"

/-- The inner loop of `initResult`, `for i := range col.Elems`, entered with
loop index `i` and the remaining elements: it writes `Types[idx]` and
`Names[idx]` and advances `idx`. -/
def unrollTuple (name : String) :
    List TypeInfo → Nat → List (Option TypeInfo) → List String → Nat →
      Option (List (Option TypeInfo) × List String × Nat)
  | [], _, types, names, idx => some (types, names, idx)
  | e :: es, i, types, names, idx =>
    match setIdx types idx (some e) with
    | none => none
    | some types1 =>
      match setIdx names idx (tupleElemName name i) with
      | none => none
      | some names1 => unrollTuple name es (i + 1) types1 names1 (idx + 1)

/-- One iteration of the outer loop of `initResult`. -/
def initResultStep (column : ColumnInfo) (types : List (Option TypeInfo))
    (names : List String) (idx : Nat) :
    Option (List (Option TypeInfo) × List String × Nat) :=
  match column.TypeInfo with
  | .tuple _ _ _ Elems =>
    match makeSlice (none : Option TypeInfo) ((Elems.length : Int) - 1) with
    | none => none
    | some tmpTypes =>
      match makeSlice "" ((Elems.length : Int) - 1) with
      | none => none
      | some tmpNames =>
        unrollTuple column.Name Elems 0 (types ++ tmpTypes) (names ++ tmpNames) idx
  | t =>
    match setIdx types idx (some t) with
    | none => none
    | some types1 =>
      match setIdx names idx column.Name with
      | none => none
      | some names1 => some (types1, names1, idx + 1)

/-- The outer loop of `initResult`, `for _, column := range iter.Columns()`. -/
def initResultLoop :
    List ColumnInfo → List (Option TypeInfo) → List String → Nat →
      Option (List (Option TypeInfo) × List String × Nat)
  | [], types, names, idx => some (types, names, idx)
  | column :: rest, types, names, idx =>
    match initResultStep column types names idx with
    | none => none
    | some (types1, names1, idx1) => initResultLoop rest types1 names1 idx1

/-- The function `initResult`, on the columns `iter.Columns()`. -/
def initResult (columns : List ColumnInfo) : Option Result :=
  match initResultLoop columns (List.replicate columns.length none)
      (List.replicate columns.length "") 0 with
  | none => none
  | some (types, names, _) => some { Types := types, Names := names, Rows := [] }

/-- The entries of `Types` one column stands for once tuples are unrolled. -/
def unrolledTypes (c : ColumnInfo) : List (Option TypeInfo) :=
  match c.TypeInfo with
  | .tuple _ _ _ Elems => Elems.map some
  | t => [some t]

/-- The names `c.t[i], c.t[i+1], ...` for the tuple elements numbered from `i`. -/
def tupleNamesFrom (name : String) : List TypeInfo → Nat → List String
  | [], _ => []
  | _ :: es, i => tupleElemName name i :: tupleNamesFrom name es (i + 1)

/-- The entries of `Names` one column stands for once tuples are unrolled. -/
def unrolledNames (c : ColumnInfo) : List String :=
  match c.TypeInfo with
  | .tuple _ _ _ Elems => (List.range Elems.length).map (tupleElemName c.Name)
  | _ => [c.Name]

/-- The number of result sub-columns of one column: the arity of a tuple, one
otherwise. -/
def unrolledWidth (c : ColumnInfo) : Nat :=
  match c.TypeInfo with
  | .tuple _ _ _ Elems => Elems.length
  | _ => 1

/-- Every tuple-typed column has at least one element. -/
def tuplesNonEmpty (columns : List ColumnInfo) : Prop :=
  ∀ c ∈ columns, ∀ proto typ custom, c.TypeInfo ≠ TypeInfo.tuple proto typ custom []


/-- The part of a `gocql.Iter` the translated code observes: its column
metadata `Columns()`, the row count `NumRows()` it reports, and the payloads of
the rows that successive `Scan` calls can still serve (a `Scan` succeeds exactly
when one is left). -/
structure Iter where
  columns : List ColumnInfo
  numRows : Nat
  pending : List (List Nat)

/-- The effect of a successful `Scan` on the destination row handed over through
`ToUnmarshal`: the scanned payloads overwrite its cells in order. -/
def writeRow : RowMV → List Nat → RowMV
  | [], _ => []
  | c :: cs, [] => c :: cs
  | _ :: cs, v :: vs => some v :: writeRow cs vs

/-- The call `iter.Scan(dest.ToUnmarshal()...)`: whether a row was scanned, the
iterator afterwards and the destination row afterwards. -/
def Iter.Scan (iter : Iter) (dest : RowMV) : Bool × Iter × RowMV :=
  match iter.pending with
  | [] => (false, iter, dest)
  | d :: rest => (true, { iter with pending := rest }, writeRow dest d)

/-- Modelled from the spec: the method `RowMV.NewSameRow` is declared in a file
that is not among the sources; it returns a fresh row of the same shape, with
every cell unset. -/
def NewSameRow (row : RowMV) : RowMV := row.map fun _ => none

/-- Modelled from the spec: the function `initRows` is declared in a file that is
not among the sources; following the comment on `initResult` ("only Rows[0] have
proper all column's initiation") it returns a buffer of `rows` rows of which only
the first is initialised, with one unset cell per entry of `types`. -/
def initRows (types : List (Option TypeInfo)) (rows : Nat) : RowsMV :=
  match rows with
  | 0 => []
  | n + 1 => (types.map fun _ => none) :: List.replicate n []

/-- The loop of `GetResult`,
`for iter.Scan(out.Rows[count].ToUnmarshal()...) { ... }`, by recursion on the
rows the iterator can still serve; it returns the buffer before trimming and the
final `count`. -/
def scanRows : List (List Nat) → RowsMV → Nat → Option (RowsMV × Nat)
  | [], rows, count =>
    match rows[count]? with
    | none => none
    | some _ => some (rows, count)
  | d :: rest, rows, count =>
    match rows[count]? with
    | none => none
    | some dest =>
      let rows1 := rows.set count (writeRow dest d)
      let count1 := count + 1
      let rows2 :=
        if count1 ≥ rows1.length then rows1 ++ List.replicate rows1.length [] else rows1
      match rows2[0]? with
      | none => none
      | some row0 =>
        match setIdx rows2 count1 (NewSameRow row0) with
        | none => none
        | some rows3 => scanRows rest rows3 count1

/-- The slice expression `rows[:count]`.  A bound beyond the length is a panic
here; Go allows it up to the capacity, which the loop never needs. -/
def sliceTo (rows : RowsMV) (count : Nat) : Option RowsMV :=
  if count ≤ rows.length then some (rows.take count) else none

/-- The function `GetResult`: the result and the iterator after the scans. -/
def GetResult (iter : Iter) : Option (Result × Iter) :=
  match iter.numRows with
  | 0 => some (Result.zero, iter)
  | 1 =>
    match initResult iter.columns with
    | none => none
    | some out =>
      let rows := initRows out.Types iter.numRows
      match rows[0]? with
      | none => none
      | some dest =>
        let r := iter.Scan dest
        some ({ out with Rows := rows.set 0 r.2.2 }, r.2.1)
  | _ + 2 =>
    match initResult iter.columns with
    | none => none
    | some out =>
      let rows := initRows out.Types iter.numRows
      match scanRows iter.pending rows 0 with
      | none => none
      | some (rows1, count) =>
        match sliceTo rows1 count with
        | none => none
        | some rows2 => some ({ out with Rows := rows2 }, { iter with pending := [] })

/-- The guarded statement
`if !ver.Check.Done() { ver.Check.Add(out.Types[0].Version() <= 2) }`: given
what `Done()` answers, the arguments of the `Add` calls it performs, in order.
`Types[0]` out of range and a nil `Types[0]` both panic. -/
def verCheckAdd (done : Bool) (out : Result) : Option (List Bool) :=
  if done then some []
  else
    match out.Types[0]? with
    | none => none
    | some none => none
    | some (some t) => some [decide (t.Version ≤ 2)]

/-- The function `GetResultWithVerCheck`, given what `ver.Check.Done()` answers:
the result, the iterator after the scans, and the arguments of the calls of
`ver.Check.Add` it performed. -/
def GetResultWithVerCheck (iter : Iter) (done : Bool) : Option (Result × Iter × List Bool) :=
  match iter.numRows with
  | 0 => some (Result.zero, iter, [])
  | 1 =>
    match initResult iter.columns with
    | none => none
    | some out =>
      match verCheckAdd done out with
      | none => none
      | some adds =>
        let rows := initRows out.Types iter.numRows
        match rows[0]? with
        | none => none
        | some dest =>
          let r := iter.Scan dest
          some ({ out with Rows := rows.set 0 r.2.2 }, r.2.1, adds)
  | _ + 2 =>
    match initResult iter.columns with
    | none => none
    | some out =>
      match verCheckAdd done out with
      | none => none
      | some adds =>
        let rows := initRows out.Types iter.numRows
        match scanRows iter.pending rows 0 with
        | none => none
        | some (rows1, count) =>
          match sliceTo rows1 count with
          | none => none
          | some rows2 => some ({ out with Rows := rows2 }, { iter with pending := [] }, adds)

/-! ## float64 arithmetic -/

/-- A `float64` value: not-a-number, an infinity, or the finite value
`(-1)^neg * m * 2^e`.  The operations below return finite values in IEEE-754
binary64 form only: `m = 0` and `e = 0` for a zero, `2^52 ≤ m < 2^53` and
`-1074 ≤ e ≤ 971` for a normal number, `0 < m < 2^52` and `e = -1074` for a
subnormal one. -/
inductive F64
  | nan
  | inf (neg : Bool)
  | fin (neg : Bool) (m : Nat) (e : Int)
  deriving DecidableEq, Repr

/-- The number of binary digits of `n`, computed with `fuel` halvings. -/
def bitLenAux : Nat → Nat → Nat
  | 0, _ => 0
  | fuel + 1, n => if n = 0 then 0 else bitLenAux fuel (n / 2) + 1

/-- The number of binary digits of `n` (`0` for `0`). -/
def bitLen (n : Nat) : Nat := bitLenAux n n

/-- The last step of rounding: a significand `m ≤ 2^53` at exponent `e ≥ -1074`
is renormalised when the round-up carried into bit 53, and becomes an infinity
when it leaves the binary64 range. -/
def F64.pack (neg : Bool) (m : Nat) (e : Int) : F64 :=
  if m = 0 then .fin neg 0 0
  else if m = 2 ^ 53 then (if e + 1 > 971 then .inf neg else .fin neg (2 ^ 52) (e + 1))
  else if e > 971 then .inf neg
  else .fin neg m e

/-- Rounding of the exact value `(-1)^neg * m * 2^e` to the nearest `float64`,
ties to even: the rounding every IEEE-754 operation applies to its exact
result. -/
def F64.round (neg : Bool) (m : Nat) (e : Int) : F64 :=
  if m = 0 then .fin neg 0 0
  else
    let e1 : Int := max (e + (bitLen m : Int) - 53) (-1074)
    if e1 ≤ e then F64.pack neg (m * 2 ^ (e - e1).toNat) e1
    else
      let s := (e1 - e).toNat
      let q := m / 2 ^ s
      let r := m % 2 ^ s
      let half := 2 ^ (s - 1)
      let q1 := if r > half ∨ (r = half ∧ q % 2 = 1) then q + 1 else q
      F64.pack neg q1 e1

/-- The conversion `float64(n)` of a non-negative integer. -/
def F64.ofNat (n : Nat) : F64 := F64.round false n 0

/-- The `float64` product `x * y`. -/
def F64.mul : F64 → F64 → F64
  | .nan, _ => .nan
  | _, .nan => .nan
  | .inf s, .inf t => .inf (xor s t)
  | .inf s, .fin t m _ => if m = 0 then .nan else .inf (xor s t)
  | .fin s m _, .inf t => if m = 0 then .nan else .inf (xor s t)
  | .fin s m e, .fin t n f => F64.round (xor s t) (m * n) (e + f)

/-- The doubling `x + x` (written `x1 += x1` in `math.Pow`). -/
def F64.double : F64 → F64
  | .nan => .nan
  | .inf s => .inf s
  | .fin s m e => F64.round s m (e + 1)

/-- The comparison `x < 0.5` for a finite `x` (false on `NaN`). -/
def F64.ltHalf : F64 → Bool
  | .nan => false
  | .inf s => s
  | .fin s m e =>
    if m = 0 then true
    else if s then true
    else decide ((e : Int) + (bitLen m : Int) ≤ -1)

/-- The standard library `math.Frexp` on a finite non-zero value: the fraction
with magnitude in `[1/2, 1)` and the exponent. -/
def F64.frexp (s : Bool) (m : Nat) (e : Int) : F64 × Int :=
  (F64.round s m (-(bitLen m : Int)), e + (bitLen m : Int))

/-- The standard library `math.Ldexp(frac, exp)`: `frac * 2^exp`, correctly
rounded; zeros, infinities and `NaN` are returned unchanged. -/
def F64.ldexp : F64 → Int → F64
  | .nan, _ => .nan
  | .inf s, _ => .inf s
  | .fin s m e, k => if m = 0 then .fin s m e else F64.round s m (e + k)

/-- The loop `for i := int64(yi); i != 0; i >>= 1 { ... }` of `math.Pow`, on the
running answer `a1 * 2^ae` and the running power `x1 * 2^xe`.  `fuel` bounds the
number of iterations; 64 is enough for an `int64`. -/
def F64.powLoop : Nat → Nat → F64 → Int → F64 → Int → F64 × Int
  | 0, _, a1, ae, _, _ => (a1, ae)
  | fuel + 1, i, a1, ae, x1, xe =>
    if i = 0 then (a1, ae)
    else if xe < -4096 ∨ 4096 < xe then (a1, ae + xe)
    else
      let a2 := if i % 2 = 1 then F64.mul a1 x1 else a1
      let ae2 := if i % 2 = 1 then ae + xe else ae
      let x2 := F64.mul x1 x1
      let xe2 := 2 * xe
      let x3 := if F64.ltHalf x2 then F64.double x2 else x2
      let xe3 := if F64.ltHalf x2 then xe2 - 1 else xe2
      F64.powLoop fuel (i / 2) a2 ae2 x3 xe3

/-- The standard library `math.Pow(x, y)` (its portable Go implementation) for
an exponent `y` that is the non-negative integer `n`, held exactly by the
`float64` (`n < 2^53`), as in the call `math.Pow(_, maxMapSize)`. -/
def F64.powNat (x : F64) (n : Nat) : F64 :=
  if n = 0 ∨ x = F64.ofNat 1 then F64.ofNat 1
  else if n = 1 then x
  else
    match x with
    | .nan => .nan
    | .inf s => .inf (s && decide (n % 2 = 1))
    | .fin s m e =>
      if m = 0 then .fin (s && decide (n % 2 = 1)) 0 0
      else
        let fr := F64.frexp s m e
        let r := F64.powLoop 64 n (F64.ofNat 1) 0 fr.1 fr.2
        F64.ldexp r.1 r.2


/-! ## `pkg/typedef/types.go` -/

/-- The named string type `SimpleType`. -/
abbrev SimpleType := String

/-- The constant `maxMapSize`. -/
def maxMapSize : Nat := 10

/-- The constant `maxBagSize`. -/
def maxBagSize : Nat := 10

/-- The constructor `gocql.NewNativeType(proto, typ, custom)`. -/
def NewNativeType (proto : Nat) (typ : GoCQLType) (custom : String) : TypeInfo :=
  .native proto typ custom

/-- The package variable `goCQLTypeMap`, as its list of entries.  The constant
`GoCQLProtoVersion4` is declared outside the given sources and is a parameter. -/
def goCQLTypeMap (GoCQLProtoVersion4 : Nat) : List (GoCQLType × TypeInfo) :=
  [ (.TypeAscii, NewNativeType GoCQLProtoVersion4 .TypeAscii ""),
    (.TypeBigInt, NewNativeType GoCQLProtoVersion4 .TypeBigInt ""),
    (.TypeBlob, NewNativeType GoCQLProtoVersion4 .TypeBlob ""),
    (.TypeBoolean, NewNativeType GoCQLProtoVersion4 .TypeBoolean ""),
    (.TypeDate, NewNativeType GoCQLProtoVersion4 .TypeDate ""),
    (.TypeDecimal, NewNativeType GoCQLProtoVersion4 .TypeDecimal ""),
    (.TypeDouble, NewNativeType GoCQLProtoVersion4 .TypeDouble ""),
    (.TypeDuration, NewNativeType GoCQLProtoVersion4 .TypeDuration ""),
    (.TypeFloat, NewNativeType GoCQLProtoVersion4 .TypeFloat ""),
    (.TypeInet, NewNativeType GoCQLProtoVersion4 .TypeInet ""),
    (.TypeInt, NewNativeType GoCQLProtoVersion4 .TypeInt ""),
    (.TypeSmallInt, NewNativeType GoCQLProtoVersion4 .TypeSmallInt ""),
    (.TypeText, NewNativeType GoCQLProtoVersion4 .TypeText ""),
    (.TypeTime, NewNativeType GoCQLProtoVersion4 .TypeTime ""),
    (.TypeTimestamp, NewNativeType GoCQLProtoVersion4 .TypeTimestamp ""),
    (.TypeTimeUUID, NewNativeType GoCQLProtoVersion4 .TypeTimeUUID ""),
    (.TypeTinyInt, NewNativeType GoCQLProtoVersion4 .TypeTinyInt ""),
    (.TypeUUID, NewNativeType GoCQLProtoVersion4 .TypeUUID ""),
    (.TypeVarchar, NewNativeType GoCQLProtoVersion4 .TypeVarchar ""),
    (.TypeVarint, NewNativeType GoCQLProtoVersion4 .TypeVarint ""),
    (.TypeList, NewNativeType GoCQLProtoVersion4 .TypeList ""),
    (.TypeMap, NewNativeType GoCQLProtoVersion4 .TypeMap ""),
    (.TypeSet, NewNativeType GoCQLProtoVersion4 .TypeSet ""),
    (.TypeTuple, NewNativeType GoCQLProtoVersion4 .TypeTuple ""),
    (.TypeUDT, NewNativeType GoCQLProtoVersion4 .TypeUDT ""),
    (.TypeCounter, NewNativeType GoCQLProtoVersion4 .TypeCounter "") ]

/-- The map index expression `m[k]` of Go: the value stored under `k`, or the
zero value (the nil interface, `none`) when the key is absent. -/
def mapIndex : List (GoCQLType × TypeInfo) → GoCQLType → Option TypeInfo
  | [], _ => none
  | (k1, v) :: rest, k => if k1 = k then some v else mapIndex rest k

/-- The struct `MapType`. -/
structure MapType where
  ComplexType : String
  KeyType : SimpleType
  ValueType : SimpleType
  Frozen : Bool

/-- The method `(*MapType).CQLType`. -/
def MapType.CQLType (GoCQLProtoVersion4 : Nat) (_mt : MapType) : Option TypeInfo :=
  mapIndex (goCQLTypeMap GoCQLProtoVersion4) .TypeMap

/-- The method `(*MapType).ValueVariationsNumber`.  The method
`SimpleType.ValueVariationsNumber` it calls is declared outside the given
sources and is the parameter `simpleVariations`; `P` is the type of the range
config. -/
def MapType.ValueVariationsNumber {P : Type} (simpleVariations : SimpleType → P → F64)
    (mt : MapType) (p : P) : F64 :=
  F64.powNat (F64.mul (simpleVariations mt.KeyType p) (simpleVariations mt.ValueType p))
    maxMapSize

/-- A Go map built through `reflect`: its entries in insertion order. -/
abbrev GoMap (υ : Type) := List (υ × υ)

/-- The call `vals.SetMapIndex(key, elem)` with a non-nil `elem`: the entry under
an equal key is overwritten, otherwise an entry is added.  `keyEq` is the key
equality of Go maps (not reflexive on a `NaN` key). -/
def SetMapIndex {υ : Type} (keyEq : υ → υ → Bool) (vals : GoMap υ) (key elem : υ) : GoMap υ :=
  if vals.any (fun kv => keyEq kv.1 key) then
    vals.map (fun kv => if keyEq kv.1 key then (kv.1, elem) else kv)
  else vals ++ [(key, elem)]

/-- What the generators of `MapType` take from outside the given sources, over
the state `ρ` of the random stream `r`, generated values `υ` and the range config
`P`: `utils.RandInt2(r, min, max)`, `r.Intn(n)`, the single value
`SimpleType.GenValue(r, p)[0]` of a scalar, `SimpleType.GenJSONValue(r, p)`, and
the key equality of Go maps. -/
structure MapGenEnv (ρ υ P : Type) where
  RandInt2 : ρ → Int → Int → Int × ρ
  Intn : ρ → Int → Int × ρ
  GenValue0 : SimpleType → ρ → P → υ × ρ
  GenJSONValue : SimpleType → ρ → P → υ × ρ
  keyEq : υ → υ → Bool

/-- The loop `for i := 0; i < count; i++ { vals.SetMapIndex(key, value) }` of
`(*MapType).GenValue`, with `n` iterations left: each one generates a key, then
a value. -/
def MapType.genValueLoop {ρ υ P : Type} (env : MapGenEnv ρ υ P) (mt : MapType) (p : P) :
    Nat → GoMap υ → ρ → GoMap υ × ρ
  | 0, vals, r => (vals, r)
  | n + 1, vals, r =>
    let k := env.GenValue0 mt.KeyType r p
    let v := env.GenValue0 mt.ValueType k.2 p
    MapType.genValueLoop env mt p n (SetMapIndex env.keyEq vals k.1 v.1) v.2

/-- The method `(*MapType).GenValue`: the returned slice and the random stream
afterwards.  The two values generated for `reflect.MapOf` only fix the Go type
of the map; they advance the stream. -/
def MapType.GenValue {ρ υ P : Type} (env : MapGenEnv ρ υ P) (mt : MapType) (r : ρ) (p : P) :
    List (GoMap υ) × ρ :=
  let count := env.RandInt2 r 1 ((maxMapSize : Int) + 1)
  let k0 := env.GenValue0 mt.KeyType count.2 p
  let v0 := env.GenValue0 mt.ValueType k0.2 p
  let res := MapType.genValueLoop env mt p count.1.toNat [] v0.2
  ([res.1], res.2)

/-- The loop of `(*MapType).GenJSONValue`, with `n` iterations left. -/
def MapType.genJSONValueLoop {ρ υ P : Type} (env : MapGenEnv ρ υ P) (mt : MapType) (p : P) :
    Nat → GoMap υ → ρ → GoMap υ × ρ
  | 0, vals, r => (vals, r)
  | n + 1, vals, r =>
    let k := env.GenJSONValue mt.KeyType r p
    let v := env.GenJSONValue mt.ValueType k.2 p
    MapType.genJSONValueLoop env mt p n (SetMapIndex env.keyEq vals k.1 v.1) v.2

/-- The method `(*MapType).GenJSONValue`: the returned map and the random stream
afterwards. -/
def MapType.GenJSONValue {ρ υ P : Type} (env : MapGenEnv ρ υ P) (mt : MapType) (r : ρ) (p : P) :
    GoMap υ × ρ :=
  let n := env.Intn r 9
  let count := n.1 + 1
  let k0 := env.GenJSONValue mt.KeyType n.2 p
  let v0 := env.GenJSONValue mt.ValueType k0.2 p
  MapType.genJSONValueLoop env mt p count.toNat [] v0.2

/-- The struct `CounterType`; `Value` is an `int64`. -/
structure CounterType where
  Value : Int
  deriving DecidableEq, Repr

/-- The reduction of an integer to the `int64` range (two's complement). -/
def wrapInt64 (x : Int) : Int := (x + 2 ^ 63) % 2 ^ 64 - 2 ^ 63

/-- The call `atomic.AddInt64(&addr, delta)` on the value stored at `addr`: the
new value, which is both stored and returned. -/
def AddInt64 (addr delta : Int) : Int := wrapInt64 (addr + delta)

/-- The method `(*CounterType).CQLType`. -/
def CounterType.CQLType (GoCQLProtoVersion4 : Nat) (_ct : CounterType) : Option TypeInfo :=
  mapIndex (goCQLTypeMap GoCQLProtoVersion4) .TypeMap

/-- The method `(*CounterType).GenJSONValue`: the returned value, the counter and
the random stream afterwards.  `UnderTest` is the package variable
`utils.UnderTest` and `Int63` the method `r.Int63()`. -/
def CounterType.GenJSONValue {ρ : Type} (UnderTest : Bool) (Int63 : ρ → Int × ρ)
    (ct : CounterType) (r : ρ) : Int × CounterType × ρ :=
  if UnderTest then
    let x := Int63 r
    (x.1, ct, x.2)
  else
    let v := AddInt64 ct.Value 1
    (v, { Value := v }, r)

/-- The method `(*CounterType).GenValue`: the returned slice, the counter and the
random stream afterwards. -/
def CounterType.GenValue {ρ : Type} (UnderTest : Bool) (Int63 : ρ → Int × ρ)
    (ct : CounterType) (r : ρ) : List Int × CounterType × ρ :=
  if UnderTest then
    let x := Int63 r
    ([x.1], ct, x.2)
  else
    let v := AddInt64 ct.Value 1
    ([v], { Value := v }, r)

/-- The method `(*CounterType).ValueVariationsNumber`: the constant expression
`2 ^ 64`, in which `^` is the bitwise exclusive or of Go, converted to
`float64`. -/
def CounterType.ValueVariationsNumber {P : Type} (_ct : CounterType) (_p : P) : F64 :=
  F64.ofNat (2 ^^^ 64)

/-- One call on a counter column: `GenValue` or `GenJSONValue`. -/
inductive CounterCall
  | GenValue
  | GenJSONValue
  deriving DecidableEq, Repr

/-- What one call on a counter hands back: the slice of `GenValue` or the value
of `GenJSONValue`. -/
inductive CounterOut
  | slice (xs : List Int)
  | value (x : Int)
  deriving DecidableEq, Repr

/-- What a call hands back when it returns the integer `x`: `GenValue` a
one-element slice, `GenJSONValue` the value itself. -/
def CounterOut.ofCall : CounterCall → Int → CounterOut
  | .GenValue, x => .slice [x]
  | .GenJSONValue, x => .value x

/-- A sequence of calls on one counter, in order: what each call returns, the
counter and the random stream after the last one. -/
def CounterType.run {ρ : Type} (UnderTest : Bool) (Int63 : ρ → Int × ρ) :
    List CounterCall → CounterType → ρ → List CounterOut × CounterType × ρ
  | [], ct, r => ([], ct, r)
  | .GenValue :: rest, ct, r =>
    let o := CounterType.GenValue UnderTest Int63 ct r
    let t := CounterType.run UnderTest Int63 rest o.2.1 o.2.2
    (.slice o.1 :: t.1, t.2)
  | .GenJSONValue :: rest, ct, r =>
    let o := CounterType.GenJSONValue UnderTest Int63 ct r
    let t := CounterType.run UnderTest Int63 rest o.2.1 o.2.2
    (.value o.1 :: t.1, t.2)

/-- The integer a call handed back. -/
def CounterOut.int : CounterOut → Option Int
  | .slice [x] => some x
  | .slice _ => none
  | .value x => some x


/-! ## `cmd/gemini/generators.go` -/

/-- The struct `typedef.Schema`, restricted to its tables; `τ` is the type of a
table (`*typedef.Table`). -/
structure Schema (τ : Type) where
  Tables : List τ

/-- The struct `generators.Config`, with the fields the composite literal in
`createGenerators` sets; `P` is the range config and `δ` the distribution
function type. -/
structure Config (P δ : Type) where
  PartitionsRangeConfig : P
  PartitionsCount : Nat
  PartitionsDistributionFunc : δ
  Seed : Nat
  PkUsedBufferSize : Nat
  deriving DecidableEq, Repr

/-- The package-level variables of `package main` that `createGenerators` reads;
they are declared outside the given sources. -/
structure Globals where
  partitionKeyDistribution : String
  partitionCount : Nat
  stdDistMean : F64
  oneStdDev : F64
  pkBufferReuseSize : Nat

/-- What `createGenerators` calls from outside the given sources, over a world
state `σ` that the calls may read and change: `schemaConfig.GetPartitionRangeConfig()`,
`createDistributionFunc(distribution, size, seed, mu, sigma)`,
`generators.NewGenerator(table, config, logger)` and `logger.Named(name)`. -/
structure GenEnv (σ τ C P δ ε L γ : Type) where
  GetPartitionRangeConfig : C → P
  createDistributionFunc : σ → String → Nat → Nat → F64 → F64 → Except ε δ × σ
  NewGenerator : σ → τ → Config P δ → L → γ × σ
  Named : L → String → L

/-- The loop `for id := range schema.Tables { ... }` of `createGenerators`, on the
tables still to visit and the slice `gs` built so far: the two returned values
(a nil slice is `[]`, a nil error is `none`) and the world state afterwards. -/
def createGeneratorsLoop {σ τ C P δ ε L γ : Type} (env : GenEnv σ τ C P δ ε L γ)
    (g : Globals) (partitionRangeConfig : P) (seed distributionSize : Nat) (logger : L) :
    List τ → List γ → σ → (List γ × Option ε) × σ
  | [], gs, w => ((gs, none), w)
  | table :: rest, gs, w =>
    match env.createDistributionFunc w g.partitionKeyDistribution g.partitionCount seed
        g.stdDistMean g.oneStdDev with
    | (.error err, w1) => (([], some err), w1)
    | (.ok distFunc, w1) =>
      let gCfg : Config P δ :=
        { PartitionsRangeConfig := partitionRangeConfig
          PartitionsCount := distributionSize
          PartitionsDistributionFunc := distFunc
          Seed := seed
          PkUsedBufferSize := g.pkBufferReuseSize }
      let made := env.NewGenerator w1 table gCfg (env.Named logger "generators")
      createGeneratorsLoop env g partitionRangeConfig seed distributionSize logger
        rest (gs ++ [made.1]) made.2

/-- The function `createGenerators`. -/
def createGenerators {σ τ C P δ ε L γ : Type} (env : GenEnv σ τ C P δ ε L γ) (g : Globals)
    (w : σ) (schema : Schema τ) (schemaConfig : C) (seed distributionSize : Nat) (logger : L) :
    (List γ × Option ε) × σ :=
  createGeneratorsLoop env g (env.GetPartitionRangeConfig schemaConfig) seed distributionSize
    logger schema.Tables [] w

/-- The arguments of one call of `createDistributionFunc`, kept as the
distribution function it returns by the recording environment below. -/
structure DistCall where
  distribution : String
  size : Nat
  seed : Nat
  mu : F64
  sigma : F64
  deriving DecidableEq, Repr

/-- An environment that records: `createDistributionFunc` always succeeds and
returns its own arguments, `NewGenerator` returns the table and the config it was
given. -/
def recordingEnv : GenEnv Unit String Unit Unit DistCall String Unit
    (String × Config Unit DistCall) where
  GetPartitionRangeConfig := fun _ => ()
  createDistributionFunc := fun w d size seed mu sigma => (.ok ⟨d, size, seed, mu, sigma⟩, w)
  NewGenerator := fun w table cfg _ => ((table, cfg), w)
  Named := fun l _ => l

/-- An environment whose world state counts the calls of
`createDistributionFunc`; the call numbered `failAt` (from 0) fails, every other
one succeeds and returns its own arguments. -/
def failingEnv (failAt : Nat) : GenEnv Nat String Unit Unit DistCall String Unit
    (String × Config Unit DistCall) where
  GetPartitionRangeConfig := fun _ => ()
  createDistributionFunc := fun w d size seed mu sigma =>
    if w = failAt then (.error "unsupported distribution", w + 1)
    else (.ok ⟨d, size, seed, mu, sigma⟩, w + 1)
  NewGenerator := fun w table cfg _ => ((table, cfg), w)
  Named := fun l _ => l


/-- The calls that serve a list of tables, written out one table at a time and
independently of `createGenerators`: `TablesServed env g prc seed ds logger w
tables gs w1` says that, starting in world `w`, for each table in order
`createDistributionFunc` was called in the current world with the package
variables of `g` and `seed` and succeeded with some `distFunc`, and then
`NewGenerator` was called in the world that call left, on that table, the config
`{prc, ds, distFunc, seed, g.pkBufferReuseSize}` and the logger named
`"generators"`; `gs` lists the generators so made, in table order, and `w1` is
the world after the last call. -/
inductive TablesServed {σ τ C P δ ε L γ : Type} (env : GenEnv σ τ C P δ ε L γ)
    (g : Globals) (prc : P) (seed ds : Nat) (logger : L) :
    σ → List τ → List γ → σ → Prop
  | nil (w : σ) : TablesServed env g prc seed ds logger w [] [] w
  | cons (w w1 w2 w3 : σ) (table : τ) (rest : List τ) (distFunc : δ) (gen : γ)
      (gs : List γ) :
      env.createDistributionFunc w g.partitionKeyDistribution g.partitionCount seed
        g.stdDistMean g.oneStdDev = (.ok distFunc, w1) →
      env.NewGenerator w1 table
        { PartitionsRangeConfig := prc, PartitionsCount := ds,
          PartitionsDistributionFunc := distFunc, Seed := seed,
          PkUsedBufferSize := g.pkBufferReuseSize } (env.Named logger "generators")
        = (gen, w2) →
      TablesServed env g prc seed ds logger w2 rest gs w3 →
      TablesServed env g prc seed ds logger w (table :: rest) (gen :: gs) w3


/-! # Theorems -/

/-! ## Lemmas on checked slices -/

theorem setIdx_append_cons {α : Type} (A : List α) (x v : α) (B : List α) :
    setIdx (A ++ x :: B) A.length v = some ((A ++ [v]) ++ B) := by
  unfold setIdx
  have h : A.length < (A ++ x :: B).length := by simp
  rw [if_pos h, List.set_append_right _ _ (le_refl _)]
  simp

theorem makeSlice_pred {α : Type} (z : α) (k : Nat) :
    makeSlice z (((k + 1 : Nat) : Int) - 1) = some (List.replicate k z) := by
  unfold makeSlice
  have h : (((k + 1 : Nat) : Int) - 1) = (k : Int) := by push_cast; ring
  rw [h]
  simp

/-! ## `initResult` -/

theorem unrollTuple_fill (name : String) (es : List TypeInfo) :
    ∀ (i m : Nat) (A : List (Option TypeInfo)) (N : List String), A.length = N.length →
      unrollTuple name es i (A ++ List.replicate (es.length + m) none)
          (N ++ List.replicate (es.length + m) "") A.length
        = some (A ++ es.map some ++ List.replicate m none,
                N ++ tupleNamesFrom name es i ++ List.replicate m "",
                A.length + es.length) := by
  induction es with
  | nil => intro i m A N _; simp [unrollTuple, tupleNamesFrom]
  | cons e es ih =>
    intro i m A N hlen
    have hk : (e :: es).length + m = (es.length + m) + 1 := by simp; omega
    rw [hk, List.replicate_succ, List.replicate_succ]
    unfold unrollTuple
    rw [setIdx_append_cons]
    simp only []
    rw [hlen, setIdx_append_cons]
    simp only []
    have hA : (A ++ [some e]).length = (N ++ [tupleElemName name i]).length := by simp [hlen]
    have h := ih (i + 1) m (A ++ [some e]) (N ++ [tupleElemName name i]) hA
    have hl : (A ++ [some e]).length = N.length + 1 := by simp [hlen]
    rw [hl] at h
    rw [h]
    simp [tupleNamesFrom, hlen]
    omega

theorem unrolledTypes_length (c : ColumnInfo) : (unrolledTypes c).length = unrolledWidth c := by
  unfold unrolledTypes unrolledWidth
  cases c.TypeInfo <;> simp

theorem tupleNamesFrom_eq_range (name : String) (es : List TypeInfo) (i : Nat) :
    tupleNamesFrom name es i = (List.range' i es.length).map (tupleElemName name) := by
  induction es generalizing i with
  | nil => rfl
  | cons e es ih => simp [tupleNamesFrom, ih, List.range'_succ]

theorem unrolledNames_length (c : ColumnInfo) : (unrolledNames c).length = unrolledWidth c := by
  unfold unrolledNames unrolledWidth
  cases c.TypeInfo <;> simp

theorem initResultStep_fill (c : ColumnInfo)
    (hc : ∀ proto typ custom, c.TypeInfo ≠ TypeInfo.tuple proto typ custom [])
    (m : Nat) (A : List (Option TypeInfo)) (N : List String) (hlen : A.length = N.length) :
    initResultStep c (A ++ List.replicate (m + 1) none) (N ++ List.replicate (m + 1) "") A.length
      = some (A ++ unrolledTypes c ++ List.replicate m none,
              N ++ unrolledNames c ++ List.replicate m "",
              A.length + unrolledWidth c) := by
  unfold initResultStep unrolledTypes unrolledNames unrolledWidth
  cases hT : c.TypeInfo with
  | native proto typ custom =>
    simp only []
    rw [List.replicate_succ, List.replicate_succ, setIdx_append_cons]
    simp only []
    rw [hlen, setIdx_append_cons]
  | tuple proto typ custom Elems =>
    cases Elems with
    | nil => exact absurd hT (hc proto typ custom)
    | cons e es =>
      simp only []
      have hl : (e :: es).length = es.length + 1 := rfl
      rw [hl, makeSlice_pred, makeSlice_pred]
      simp only []
      have h := unrollTuple_fill c.Name (e :: es) 0 m A N hlen
      have e1 : A ++ List.replicate (m + 1) none ++ List.replicate es.length none
          = A ++ List.replicate ((e :: es).length + m) (none : Option TypeInfo) := by
        rw [List.append_assoc, ← List.replicate_add]
        congr 2
        simp; omega
      have e2 : N ++ List.replicate (m + 1) "" ++ List.replicate es.length ""
          = N ++ List.replicate ((e :: es).length + m) "" := by
        rw [List.append_assoc, ← List.replicate_add]
        congr 2
        simp; omega
      rw [e1, e2, h, tupleNamesFrom_eq_range, List.range_eq_range']
      rfl

theorem initResultLoop_fill (columns : List ColumnInfo) :
    tuplesNonEmpty columns →
    ∀ (A : List (Option TypeInfo)) (N : List String), A.length = N.length →
      initResultLoop columns (A ++ List.replicate columns.length none)
          (N ++ List.replicate columns.length "") A.length
        = some (A ++ columns.flatMap unrolledTypes, N ++ columns.flatMap unrolledNames,
                A.length + (columns.map unrolledWidth).sum) := by
  induction columns with
  | nil => intro _ A N _; simp [initResultLoop]
  | cons c rest ih =>
    intro hwf A N hlen
    have hc : ∀ proto typ custom, c.TypeInfo ≠ TypeInfo.tuple proto typ custom [] :=
      hwf c (List.mem_cons_self _ _)
    have hrest : tuplesNonEmpty rest := fun d hd => hwf d (List.mem_cons_of_mem _ hd)
    unfold initResultLoop
    have hs := initResultStep_fill c hc rest.length A N hlen
    simp only [List.length_cons]
    rw [hs]
    simp only []
    have hA : (A ++ unrolledTypes c).length = (N ++ unrolledNames c).length := by
      simp [hlen, unrolledTypes_length, unrolledNames_length]
    have h := ih hrest (A ++ unrolledTypes c) (N ++ unrolledNames c) hA
    have hl : (A ++ unrolledTypes c).length = A.length + unrolledWidth c := by
      simp [unrolledTypes_length]
    rw [hl] at h
    rw [h]
    simp [List.flatMap_cons, Nat.add_assoc]

theorem initResult_eq_of_tuplesNonEmpty (columns : List ColumnInfo) (h : tuplesNonEmpty columns) :
    initResult columns = some { Types := columns.flatMap unrolledTypes,
                                Names := columns.flatMap unrolledNames, Rows := [] } := by
  have := initResultLoop_fill columns h [] [] rfl
  simp only [List.nil_append, List.length_nil, Nat.zero_add] at this
  unfold initResult
  rw [this]

theorem initResultStep_some (c : ColumnInfo) (types : List (Option TypeInfo))
    (names : List String) (idx : Nat)
    (h : initResultStep c types names idx ≠ none) :
    ∀ proto typ custom, c.TypeInfo ≠ TypeInfo.tuple proto typ custom [] := by
  intro proto typ custom hT
  apply h
  unfold initResultStep
  rw [hT]
  simp [makeSlice]

theorem initResultLoop_some (columns : List ColumnInfo) :
    ∀ (types : List (Option TypeInfo)) (names : List String) (idx : Nat),
      initResultLoop columns types names idx ≠ none → tuplesNonEmpty columns := by
  induction columns with
  | nil => intro _ _ _ _ c hc; simp at hc
  | cons c rest ih =>
    intro types names idx h d hd
    unfold initResultLoop at h
    cases hs : initResultStep c types names idx with
    | none => rw [hs] at h; exact absurd rfl h
    | some x =>
      obtain ⟨t1, n1, i1⟩ := x
      rw [hs] at h
      rcases List.mem_cons.mp hd with hdc | hdr
      · subst hdc
        exact initResultStep_some d types names idx (by rw [hs]; simp)
      · exact ih t1 n1 i1 h d hdr

theorem tuplesNonEmpty_of_initResult (columns : List ColumnInfo) (out : Result)
    (h : initResult columns = some out) : tuplesNonEmpty columns := by
  apply initResultLoop_some columns (List.replicate columns.length none)
    (List.replicate columns.length "") 0
  intro hn
  unfold initResult at h
  rw [hn] at h
  simp at h

/-- C1. `initResult` unrolls tuple columns: when every tuple-typed column has
arity at least one, it returns `Types` and `Names` of one common length, the sum
over the columns of the arity of a tuple column and one for any other column; in
column order a non-tuple column contributes its own type and name, and a tuple
column named `c` of arity `k` contributes the types `Elems[0..k-1]` under the
names `c.t[0]`, ..., `c.t[k-1]`. -/
theorem initResult_unrolls_tuples (columns : List ColumnInfo)
    (h : ∀ c ∈ columns, ∀ proto typ custom, c.TypeInfo ≠ TypeInfo.tuple proto typ custom []) :
    ∃ out, initResult columns = some out ∧
      out.Types.length = out.Names.length ∧
      out.Names.length = (columns.map fun c =>
        match c.TypeInfo with
        | .tuple _ _ _ Elems => Elems.length
        | _ => 1).sum ∧
      out.Types = columns.flatMap (fun c =>
        match c.TypeInfo with
        | .tuple _ _ _ Elems => Elems.map some
        | t => [some t]) ∧
      out.Names = columns.flatMap (fun c =>
        match c.TypeInfo with
        | .tuple _ _ _ Elems => (List.range Elems.length).map fun i => c.Name ++ ".t[" ++ toString i ++ "]"
        | _ => [c.Name]) := by
  refine ⟨_, initResult_eq_of_tuplesNonEmpty columns h, ?_, ?_, rfl, rfl⟩
  · have e1 : (List.length ∘ unrolledTypes) = unrolledWidth := funext unrolledTypes_length
    have e2 : (List.length ∘ unrolledNames) = unrolledWidth := funext unrolledNames_length
    simp only [List.length_flatMap, e1, e2]
  · have e2 : (List.length ∘ unrolledNames) = unrolledWidth := funext unrolledNames_length
    simp only [List.length_flatMap, e2]
    rfl

/-- C1, witness: a three-element tuple column `col` between two plain columns
yields exactly `col.t[0]`, `col.t[1]`, `col.t[2]` in place. -/
theorem initResult_unrolls_tuples_witness :
    ∃ out, initResult
        [⟨"pk", .native 4 .TypeInt ""⟩,
         ⟨"col", .tuple 4 .TypeTuple ""
            [.native 4 .TypeInt "", .native 4 .TypeText "", .native 4 .TypeBlob ""]⟩,
         ⟨"v", .native 4 .TypeText ""⟩] = some out ∧
      out.Names = ["pk", "col.t[0]", "col.t[1]", "col.t[2]", "v"] ∧
      out.Types = [some (.native 4 .TypeInt ""), some (.native 4 .TypeInt ""),
        some (.native 4 .TypeText ""), some (.native 4 .TypeBlob ""),
        some (.native 4 .TypeText "")] := by
  obtain ⟨out, h1, _, _, h4, h5⟩ := initResult_unrolls_tuples
    [⟨"pk", .native 4 .TypeInt ""⟩,
     ⟨"col", .tuple 4 .TypeTuple ""
        [.native 4 .TypeInt "", .native 4 .TypeText "", .native 4 .TypeBlob ""]⟩,
     ⟨"v", .native 4 .TypeText ""⟩]
    (by
      intro c hc proto typ custom
      simp only [List.mem_cons, List.mem_singleton, List.not_mem_nil, or_false] at hc
      rcases hc with rfl | rfl | rfl <;> simp)
  refine ⟨out, h1, ?_, ?_⟩
  · rw [h5]; decide
  · rw [h4]; rfl

/-! ## `GetResult` and `GetResultWithVerCheck` -/

theorem scanRows_grows (n : Nat) (pending : List (List Nat)) :
    ∀ (rows : RowsMV) (count j : Nat),
      rows.length = n * 2 ^ j → count < rows.length → (j = 0 ∨ rows.length ≤ 2 * count) →
      ∃ buf j1, scanRows pending rows count = some (buf, count + pending.length) ∧
        buf.length = n * 2 ^ j1 ∧ count + pending.length < buf.length ∧
        (j1 = 0 ∨ buf.length ≤ 2 * (count + pending.length)) := by
  induction pending with
  | nil =>
    intro rows count j hlen hlt hj
    refine ⟨rows, j, ?_, hlen, by simpa using hlt, by simpa using hj⟩
    unfold scanRows
    rw [List.getElem?_eq_getElem hlt]
    rfl
  | cons d rest ih =>
    intro rows count j hlen hlt hj
    unfold scanRows
    rw [List.getElem?_eq_getElem hlt]
    simp only [List.length_set, List.length_cons]
    by_cases hge : count + 1 ≥ rows.length
    · rw [if_pos hge]
      have hpos : 0 < (rows.set count (writeRow rows[count] d)
          ++ List.replicate rows.length ([] : RowMV)).length := by
        simp; omega
      rw [List.getElem?_eq_getElem hpos]
      simp only []
      have hin : count + 1 < (rows.set count (writeRow rows[count] d)
          ++ List.replicate rows.length ([] : RowMV)).length := by
        simp; omega
      unfold setIdx
      rw [if_pos hin]
      simp only []
      have hl3 : ((rows.set count (writeRow rows[count] d)
          ++ List.replicate rows.length ([] : RowMV)).set (count + 1)
            (NewSameRow (rows.set count (writeRow rows[count] d)
              ++ List.replicate rows.length ([] : RowMV))[0])).length = n * 2 ^ (j + 1) := by
        simp [hlen, pow_succ]; ring
      obtain ⟨buf, j1, h1, h2, h3, h4⟩ := ih _ (count + 1) (j + 1) hl3
        (by simp; omega) (Or.inr (by simp; omega))
      refine ⟨buf, j1, ?_, h2, by omega, ?_⟩
      · rw [h1]; congr 2; omega
      · rcases h4 with h4 | h4
        · exact Or.inl h4
        · exact Or.inr (by omega)
    · rw [if_neg hge]
      have hpos : 0 < (rows.set count (writeRow rows[count] d)).length := by
        simp; omega
      rw [List.getElem?_eq_getElem hpos]
      simp only []
      have hin : count + 1 < (rows.set count (writeRow rows[count] d)).length := by
        simp; omega
      unfold setIdx
      rw [if_pos hin]
      simp only []
      have hl3 : ((rows.set count (writeRow rows[count] d)).set (count + 1)
            (NewSameRow (rows.set count (writeRow rows[count] d))[0])).length = n * 2 ^ j := by
        simp [hlen]
      obtain ⟨buf, j1, h1, h2, h3, h4⟩ := ih _ (count + 1) j hl3
        (by simp; omega) (by rcases hj with hj | hj; exact Or.inl hj; exact Or.inr (by simp; omega))
      refine ⟨buf, j1, ?_, h2, by omega, ?_⟩
      · rw [h1]; congr 2; omega
      · rcases h4 with h4 | h4
        · exact Or.inl h4
        · exact Or.inr (by omega)

theorem initRows_length (types : List (Option TypeInfo)) (rows : Nat) :
    (initRows types rows).length = rows := by
  cases rows <;> simp [initRows]

theorem sliceTo_length (rows : RowsMV) (count : Nat) (h : count ≤ rows.length) :
    sliceTo rows count = some (rows.take count) ∧ (rows.take count).length = count := by
  unfold sliceTo
  rw [if_pos h]
  exact ⟨rfl, by simp [h]⟩

theorem unrolledTypes_head (c : ColumnInfo)
    (hc : ∀ proto typ custom, c.TypeInfo ≠ TypeInfo.tuple proto typ custom []) :
    ∃ t rest, unrolledTypes c = some t :: rest := by
  unfold unrolledTypes
  cases hT : c.TypeInfo with
  | native proto typ custom => exact ⟨_, [], rfl⟩
  | tuple proto typ custom Elems =>
    cases Elems with
    | nil => exact absurd hT (hc proto typ custom)
    | cons e es => exact ⟨e, es.map some, rfl⟩

theorem initResult_types_head (columns : List ColumnInfo) (out : Result)
    (h : initResult columns = some out) (hne : columns ≠ []) :
    ∃ t rest, out.Types = some t :: rest := by
  have hwf := tuplesNonEmpty_of_initResult columns out h
  rw [initResult_eq_of_tuplesNonEmpty columns hwf] at h
  cases columns with
  | nil => exact absurd rfl hne
  | cons c cs =>
    obtain ⟨t, rest, ht⟩ := unrolledTypes_head c (hwf c (List.mem_cons_self _ _))
    refine ⟨t, rest ++ cs.flatMap unrolledTypes, ?_⟩
    have : out.Types = (c :: cs).flatMap unrolledTypes := by
      cases h; rfl
    rw [this, List.flatMap_cons, ht]
    rfl

theorem verCheckAdd_some (columns : List ColumnInfo) (out : Result) (done : Bool)
    (h : initResult columns = some out) (hne : columns ≠ [] ∨ done = true) :
    ∃ adds, verCheckAdd done out = some adds ∧ adds.length ≤ 1 ∧
      (adds ≠ [] → done = false) := by
  unfold verCheckAdd
  cases done with
  | true => exact ⟨[], rfl, by simp, by simp⟩
  | false =>
    have hc : columns ≠ [] := by
      rcases hne with h1 | h1
      · exact h1
      · cases h1
    obtain ⟨t, rest, ht⟩ := initResult_types_head columns out h hc
    rw [ht]
    exact ⟨[decide (t.Version ≤ 2)], by simp, by simp, by simp⟩

/-- C2, as stated, fails on the two short branches of the `switch`: an iterator
reporting one row is handed back with exactly one row whether it can serve three
scans or none, and an iterator reporting zero rows is handed back empty although
it could serve a scan. -/
theorem GetResult_lenRows_counterexample :
    (GetResult ⟨[⟨"a", .native 4 .TypeInt ""⟩], 1, [[7], [8], [9]]⟩).map
        (fun p => p.1.LenRows) = some 1 ∧
    (GetResult ⟨[⟨"a", .native 4 .TypeInt ""⟩], 1, []⟩).map
        (fun p => p.1.LenRows) = some 1 ∧
    (GetResult ⟨[⟨"a", .native 4 .TypeInt ""⟩], 0, [[7]]⟩).map
        (fun p => p.1.LenRows) = some 0 := by
  refine ⟨rfl, rfl, rfl⟩

/-- C2, amended. For an iterator whose columns `initResult` unrolls: with
`NumRows() >= 2`, `GetResult` completes with every index into `Rows` in range,
the buffer starts at `NumRows()` rows and is doubled each time the scanned count
reaches its length (so it ends at `NumRows() * 2 ^ j` rows, more than the scanned
count and, once doubled, at most twice it), and the result is that buffer
trimmed to `LenRows() = s`, the number of successful scans; with `NumRows() = 0`
it returns the empty `Result` without scanning, and with `NumRows() = 1` it
returns a single row after one `Scan` call. -/
theorem GetResult_lenRows (iter : Iter)
    (hcols : ∀ c ∈ iter.columns, ∀ proto typ custom,
      c.TypeInfo ≠ TypeInfo.tuple proto typ custom []) :
    ∃ out iter1, GetResult iter = some (out, iter1) ∧
      (iter.numRows = 0 → out = Result.zero ∧ iter1 = iter) ∧
      (iter.numRows = 1 → out.LenRows = 1 ∧ iter1.pending = iter.pending.tail) ∧
      (2 ≤ iter.numRows →
        out.LenRows = iter.pending.length ∧ iter1.pending = [] ∧
        ∃ buf j, scanRows iter.pending (initRows out.Types iter.numRows) 0
            = some (buf, iter.pending.length) ∧
          buf.length = iter.numRows * 2 ^ j ∧
          iter.pending.length < buf.length ∧
          (j = 0 ∨ buf.length ≤ 2 * iter.pending.length) ∧
          out.Rows = buf.take iter.pending.length) := by
  have hinit := initResult_eq_of_tuplesNonEmpty iter.columns hcols
  unfold GetResult
  cases hn : iter.numRows with
  | zero => exact ⟨_, _, rfl, fun _ => ⟨rfl, rfl⟩, by simp, by simp⟩
  | succ k =>
    cases k with
    | zero =>
      simp only [hinit, Nat.zero_add]
      refine ⟨_, _, rfl, by simp, fun _ => ⟨?_, ?_⟩, by simp⟩
      · simp [Result.LenRows, initRows]
      · simp only [initRows, List.getElem?_cons_zero, Iter.Scan]
        cases hp : iter.pending with
        | nil => simpa using hp
        | cons d rest => rfl
    | succ k =>
      simp only [hinit]
      have hlen : (initRows (iter.columns.flatMap unrolledTypes) (k + 1 + 1)).length
          = (k + 1 + 1) * 2 ^ 0 := by
        rw [initRows_length]; simp
      obtain ⟨buf, j, h1, h2, h3, h4⟩ := scanRows_grows (k + 1 + 1) iter.pending _ 0 0 hlen
        (by rw [initRows_length]; omega) (Or.inl rfl)
      simp only [Nat.zero_add] at h1 h3 h4
      obtain ⟨hs1, hs2⟩ := sliceTo_length buf iter.pending.length (le_of_lt h3)
      rw [h1]
      simp only [hs1]
      refine ⟨_, _, rfl, by simp, by simp, fun _ => ⟨hs2, rfl, buf, j, h1, h2, h3, h4, rfl⟩⟩

/-- C2, amended, witness: two reported rows and five served scans. -/
theorem GetResult_lenRows_witness :
    ∃ out iter1,
      GetResult ⟨[⟨"a", .native 4 .TypeInt ""⟩], 2, [[1], [2], [3], [4], [5]]⟩
        = some (out, iter1) ∧ out.LenRows = 5 := by
  obtain ⟨out, iter1, h, _, _, h2⟩ := GetResult_lenRows
    ⟨[⟨"a", .native 4 .TypeInt ""⟩], 2, [[1], [2], [3], [4], [5]]⟩
    (by
      intro c hc proto typ custom
      simp only [List.mem_singleton] at hc
      subst hc
      simp)
  exact ⟨out, iter1, h, (h2 (by decide)).1⟩

/-- C3, as stated, fails for an iterator that reports a row but has no column
while the latch is not yet `Done`: `GetResult` returns a result and
`GetResultWithVerCheck` panics on `out.Types[0]`. -/
theorem GetResultWithVerCheck_counterexample :
    (GetResult ⟨[], 1, [[]]⟩).isSome = true ∧
    GetResultWithVerCheck ⟨[], 1, [[]]⟩ false = none := by
  exact ⟨rfl, rfl⟩

/-- C3, amended. For every iterator that has at least one column, or reports no
row, or is scanned when the latch is already `Done`, `GetResultWithVerCheck`
behaves as `GetResult` on the same iterator (same `Types`, `Names` and `Rows`,
same scans, and it panics exactly when `GetResult` does), and in addition it
performs at most one `Add` on the latch, only when the latch is not yet `Done`
and the iterator reports at least one row. -/
theorem GetResultWithVerCheck_eq_GetResult (iter : Iter) (done : Bool)
    (h : iter.columns ≠ [] ∨ done = true ∨ iter.numRows = 0) :
    (GetResultWithVerCheck iter done).map (fun x => (x.1, x.2.1)) = GetResult iter ∧
    ∀ out iter1 adds, GetResultWithVerCheck iter done = some (out, iter1, adds) →
      adds.length ≤ 1 ∧ (adds ≠ [] → done = false ∧ 1 ≤ iter.numRows) := by
  unfold GetResultWithVerCheck GetResult
  cases hn : iter.numRows with
  | zero =>
    refine ⟨rfl, ?_⟩
    intro out iter1 adds he
    simp only [Option.some.injEq, Prod.mk.injEq] at he
    obtain ⟨_, _, rfl⟩ := he
    simp
  | succ k =>
    have hne : iter.columns ≠ [] ∨ done = true := by
      rcases h with h | h | h
      · exact Or.inl h
      · exact Or.inr h
      · rw [hn] at h; cases h
    cases k with
    | zero =>
      simp only [Nat.zero_add]
      cases hi : initResult iter.columns with
      | none => simp
      | some r =>
        obtain ⟨a, ha, hl, hd⟩ := verCheckAdd_some iter.columns r done hi hne
        simp only [ha]
        cases hr : (initRows r.Types 1)[0]? with
        | none => simp
        | some dest =>
          refine ⟨rfl, ?_⟩
          intro out iter1 adds he
          simp only [Option.some.injEq, Prod.mk.injEq] at he
          obtain ⟨_, _, rfl⟩ := he
          exact ⟨hl, fun hx => ⟨hd hx, by omega⟩⟩
    | succ k =>
      cases hi : initResult iter.columns with
      | none => simp
      | some r =>
        obtain ⟨a, ha, hl, hd⟩ := verCheckAdd_some iter.columns r done hi hne
        simp only [ha]
        cases hs : scanRows iter.pending (initRows r.Types (k + 1 + 1)) 0 with
        | none => simp
        | some p =>
          obtain ⟨rows1, count⟩ := p
          simp only []
          cases hsl : sliceTo rows1 count with
          | none => simp
          | some rows2 =>
            refine ⟨rfl, ?_⟩
            intro out iter1 adds he
            simp only [Option.some.injEq, Prod.mk.injEq] at he
            obtain ⟨_, _, rfl⟩ := he
            exact ⟨hl, fun hx => ⟨hd hx, by omega⟩⟩

/-- C3, amended, witness: one column, three reported rows, latch not yet `Done`. -/
theorem GetResultWithVerCheck_eq_GetResult_witness :
    (GetResultWithVerCheck ⟨[⟨"a", .native 4 .TypeInt ""⟩], 3, [[1], [2], [3]]⟩ false).map
        (fun x => (x.1, x.2.1))
      = GetResult ⟨[⟨"a", .native 4 .TypeInt ""⟩], 3, [[1], [2], [3]]⟩ :=
  (GetResultWithVerCheck_eq_GetResult
    ⟨[⟨"a", .native 4 .TypeInt ""⟩], 3, [[1], [2], [3]]⟩ false (Or.inl (by simp))).1

/-! ## `MapType` and `CounterType` -/

theorem SetMapIndex_length {υ : Type} (keyEq : υ → υ → Bool) (vals : GoMap υ) (key elem : υ) :
    vals.length ≤ (SetMapIndex keyEq vals key elem).length ∧
    (SetMapIndex keyEq vals key elem).length ≤ vals.length + 1 ∧
    1 ≤ (SetMapIndex keyEq vals key elem).length := by
  unfold SetMapIndex
  by_cases h : vals.any (fun kv => keyEq kv.1 key) = true
  · rw [if_pos h]
    simp only [List.length_map]
    refine ⟨le_refl _, Nat.le_succ _, ?_⟩
    cases vals with
    | nil => simp at h
    | cons a as => simp
  · rw [if_neg h]
    simp

theorem genValueLoop_length {ρ υ P : Type} (env : MapGenEnv ρ υ P) (mt : MapType) (p : P)
    (n : Nat) : ∀ (vals : GoMap υ) (r : ρ),
      vals.length ≤ (MapType.genValueLoop env mt p n vals r).1.length ∧
      (MapType.genValueLoop env mt p n vals r).1.length ≤ vals.length + n ∧
      (1 ≤ n → 1 ≤ (MapType.genValueLoop env mt p n vals r).1.length) := by
  induction n with
  | zero => intro vals r; simp [MapType.genValueLoop]
  | succ n ih =>
    intro vals r
    unfold MapType.genValueLoop
    simp only []
    obtain ⟨h1, h2, h3⟩ := SetMapIndex_length env.keyEq vals
      (env.GenValue0 mt.KeyType r p).1
      (env.GenValue0 mt.ValueType (env.GenValue0 mt.KeyType r p).2 p).1
    obtain ⟨i1, i2, _⟩ := ih
      (SetMapIndex env.keyEq vals (env.GenValue0 mt.KeyType r p).1
        (env.GenValue0 mt.ValueType (env.GenValue0 mt.KeyType r p).2 p).1)
      (env.GenValue0 mt.ValueType (env.GenValue0 mt.KeyType r p).2 p).2
    refine ⟨by omega, by omega, fun _ => by omega⟩

theorem genJSONValueLoop_length {ρ υ P : Type} (env : MapGenEnv ρ υ P) (mt : MapType) (p : P)
    (n : Nat) : ∀ (vals : GoMap υ) (r : ρ),
      vals.length ≤ (MapType.genJSONValueLoop env mt p n vals r).1.length ∧
      (MapType.genJSONValueLoop env mt p n vals r).1.length ≤ vals.length + n ∧
      (1 ≤ n → 1 ≤ (MapType.genJSONValueLoop env mt p n vals r).1.length) := by
  induction n with
  | zero => intro vals r; simp [MapType.genJSONValueLoop]
  | succ n ih =>
    intro vals r
    unfold MapType.genJSONValueLoop
    simp only []
    obtain ⟨h1, h2, h3⟩ := SetMapIndex_length env.keyEq vals
      (env.GenJSONValue mt.KeyType r p).1
      (env.GenJSONValue mt.ValueType (env.GenJSONValue mt.KeyType r p).2 p).1
    obtain ⟨i1, i2, _⟩ := ih
      (SetMapIndex env.keyEq vals (env.GenJSONValue mt.KeyType r p).1
        (env.GenJSONValue mt.ValueType (env.GenJSONValue mt.KeyType r p).2 p).1)
      (env.GenJSONValue mt.ValueType (env.GenJSONValue mt.KeyType r p).2 p).2
    refine ⟨by omega, by omega, fun _ => by omega⟩

/-- C6. Generated map values respect the container bound: when
`utils.RandInt2(r, 1, maxMapSize+1)` returns a value in `[1, maxMapSize]` and
`r.Intn(9)` a value in `[0, 9)`, `MapType.GenValue` returns a single element, a
map with at least 1 and at most `maxMapSize = 10` entries, and
`MapType.GenJSONValue` returns a map with at least 1 and at most 10 entries, for
every random stream, range config and map type. -/
theorem MapType_gen_container_bound {ρ υ P : Type} (env : MapGenEnv ρ υ P)
    (hRand : ∀ r, 1 ≤ (env.RandInt2 r 1 ((maxMapSize : Int) + 1)).1 ∧
      (env.RandInt2 r 1 ((maxMapSize : Int) + 1)).1 ≤ (maxMapSize : Int))
    (hIntn : ∀ r, 0 ≤ (env.Intn r 9).1 ∧ (env.Intn r 9).1 < 9)
    (mt : MapType) (r : ρ) (p : P) :
    (∃ m, (MapType.GenValue env mt r p).1 = [m] ∧ 1 ≤ m.length ∧ m.length ≤ maxMapSize) ∧
    (1 ≤ (MapType.GenJSONValue env mt r p).1.length ∧
      (MapType.GenJSONValue env mt r p).1.length ≤ maxMapSize) ∧
    maxMapSize = 10 := by
  refine ⟨?_, ?_, rfl⟩
  · unfold MapType.GenValue
    simp only []
    refine ⟨_, rfl, ?_⟩
    obtain ⟨h1, h2⟩ := hRand r
    obtain ⟨_, l2, l3⟩ := genValueLoop_length env mt p
      (env.RandInt2 r 1 ((maxMapSize : Int) + 1)).1.toNat []
      (env.GenValue0 mt.ValueType
        (env.GenValue0 mt.KeyType (env.RandInt2 r 1 ((maxMapSize : Int) + 1)).2 p).2 p).2
    simp only [List.length_nil, Nat.zero_add] at l2
    constructor
    · apply l3; omega
    · have : (env.RandInt2 r 1 ((maxMapSize : Int) + 1)).1.toNat ≤ maxMapSize := by omega
      omega
  · unfold MapType.GenJSONValue
    simp only []
    obtain ⟨h1, h2⟩ := hIntn r
    obtain ⟨_, l2, l3⟩ := genJSONValueLoop_length env mt p
      ((env.Intn r 9).1 + 1).toNat []
      (env.GenJSONValue mt.ValueType
        (env.GenJSONValue mt.KeyType (env.Intn r 9).2 p).2 p).2
    simp only [List.length_nil, Nat.zero_add] at l2
    constructor
    · apply l3; omega
    · have : ((env.Intn r 9).1 + 1).toNat ≤ maxMapSize := by
        unfold maxMapSize; omega
      omega

/-- C6, witness: a stream of natural numbers, `RandInt2` answering `max - 1` and
`Intn` answering `n - 1`, generated values counting up, keys compared by
equality: both maps come out with ten resp. nine entries. -/
theorem MapType_gen_container_bound_witness :
    ∃ m, (MapType.GenValue
          (⟨fun r _ hi => (hi - 1, r), fun r n => (n - 1, r),
            fun _ r _ => (r, r + 1), fun _ r _ => (r, r + 1), fun a b => decide (a = b)⟩ :
            MapGenEnv Nat Nat Unit)
          ⟨"map", "int", "text", false⟩ 0 ()).1 = [m] ∧ 1 ≤ m.length ∧ m.length ≤ 10 :=
  (MapType_gen_container_bound
    (⟨fun r _ hi => (hi - 1, r), fun r n => (n - 1, r),
      fun _ r _ => (r, r + 1), fun _ r _ => (r, r + 1), fun a b => decide (a = b)⟩ :
      MapGenEnv Nat Nat Unit)
    (by intro r; simp [maxMapSize]) (by intro r; simp) ⟨"map", "int", "text", false⟩ 0 ()).1

theorem wrapInt64_of_range (x : Int) (hlo : -2 ^ 63 ≤ x) (hhi : x < 2 ^ 63) :
    wrapInt64 x = x := by
  unfold wrapInt64
  norm_num at hlo hhi ⊢
  omega

theorem CounterType_run_live {ρ : Type} (Int63 : ρ → Int × ρ) (calls : List CounterCall) :
    ∀ (v : Int) (r : ρ), -2 ^ 63 ≤ v → v + calls.length < 2 ^ 63 →
      (CounterType.run false Int63 calls ⟨v⟩ r).1.length = calls.length ∧
      (∀ (i : Nat) (c : CounterCall), calls[i]? = some c →
        (CounterType.run false Int63 calls ⟨v⟩ r).1[i]? = some
          (CounterOut.ofCall c (v + ((i : Int) + 1)))) ∧
      (CounterType.run false Int63 calls ⟨v⟩ r).2.1.Value = v + calls.length ∧
      (CounterType.run false Int63 calls ⟨v⟩ r).2.2 = r := by
  induction calls with
  | nil => intro v r _ _; simp [CounterType.run]
  | cons c rest ih =>
    intro v r hlo hhi
    have hlen : ((c :: rest).length : Int) = (rest.length : Int) + 1 := by simp
    have hw : AddInt64 v 1 = v + 1 := by
      unfold AddInt64
      exact wrapInt64_of_range (v + 1) (by omega) (by omega)
    obtain ⟨i1, i2, i3, i4⟩ := ih (v + 1) r (by omega) (by omega)
    cases c with
    | GenValue =>
      simp only [CounterType.run, CounterType.GenValue, Bool.false_eq_true, if_false, hw]
      refine ⟨by simp [i1], ?_, by rw [i3]; omega, i4⟩
      intro i c hc
      cases i with
      | zero =>
        simp only [List.getElem?_cons_zero, Option.some.injEq] at hc
        subst hc
        simp [CounterOut.ofCall]
      | succ i =>
        simp only [List.getElem?_cons_succ] at hc ⊢
        rw [i2 i c hc]
        congr 2
        push_cast
        omega
    | GenJSONValue =>
      simp only [CounterType.run, CounterType.GenJSONValue, Bool.false_eq_true, if_false, hw]
      refine ⟨by simp [i1], ?_, by rw [i3]; omega, i4⟩
      intro i c hc
      cases i with
      | zero =>
        simp only [List.getElem?_cons_zero, Option.some.injEq] at hc
        subst hc
        simp [CounterOut.ofCall]
      | succ i =>
        simp only [List.getElem?_cons_succ] at hc ⊢
        rw [i2 i c hc]
        congr 2
        push_cast
        omega

theorem CounterOut_int_ofCall (c : CounterCall) (x : Int) :
    (CounterOut.ofCall c x).int = some x := by
  cases c <;> rfl

/-- C7, as stated, fails at the top of the `int64` range: from `Value = 2^63 - 2`
two calls return `2^63 - 1` and then `-2^63`, which is neither `v + 2` nor greater
than the value before it, and leave `Value = -2^63`. -/
theorem CounterType_increment_counterexample :
    CounterType.run false (fun (r : Unit) => ((0 : Int), r))
        [.GenJSONValue, .GenJSONValue] ⟨2 ^ 63 - 2⟩ ()
      = ([.value (2 ^ 63 - 1), .value (-2 ^ 63)], ⟨-2 ^ 63⟩, ()) := by
  decide

/-- C7, amended. Outside deterministic-test mode, for a counter whose `Value` is
`v` and a sequence of `n` calls, each `GenValue` or `GenJSONValue`, that stays
within the `int64` range (`v + n ≤ 2^63 - 1`): the `i`-th call returns exactly
`v + i` (`GenValue` as a one-element slice), each returned value is strictly
greater than the one before it, and after the calls `Value = v + n`.  Under test
mode a call returns `r.Int63()` and leaves `Value` unchanged. -/
theorem CounterType_increment {ρ : Type} (Int63 : ρ → Int × ρ) (calls : List CounterCall)
    (v : Int) (r : ρ) (hlo : -2 ^ 63 ≤ v) (hhi : v + calls.length < 2 ^ 63) :
    (CounterType.run false Int63 calls ⟨v⟩ r).1.length = calls.length ∧
    (∀ (i : Nat) (c : CounterCall), calls[i]? = some c →
      (CounterType.run false Int63 calls ⟨v⟩ r).1[i]? = some
        (CounterOut.ofCall c (v + ((i : Int) + 1)))) ∧
    (∀ (i : Nat) (a b : CounterOut), (CounterType.run false Int63 calls ⟨v⟩ r).1[i]? = some a →
      (CounterType.run false Int63 calls ⟨v⟩ r).1[i + 1]? = some b →
      ∃ x y, a.int = some x ∧ b.int = some y ∧ x < y) ∧
    (CounterType.run false Int63 calls ⟨v⟩ r).2.1.Value = v + calls.length ∧
    (∀ (ct : CounterType) (s : ρ),
      CounterType.GenValue true Int63 ct s = ([(Int63 s).1], ct, (Int63 s).2) ∧
      CounterType.GenJSONValue true Int63 ct s = ((Int63 s).1, ct, (Int63 s).2)) := by
  obtain ⟨h1, h2, h3, _⟩ := CounterType_run_live Int63 calls v r hlo hhi
  refine ⟨h1, h2, ?_, h3, fun ct s => ⟨rfl, rfl⟩⟩
  intro i a b ha hb
  have hi : i < calls.length := by
    rw [← h1]
    exact (List.getElem?_eq_some.mp ha).1
  have hi1 : i + 1 < calls.length := by
    rw [← h1]
    exact (List.getElem?_eq_some.mp hb).1
  have e1 := h2 i calls[i] (List.getElem?_eq_getElem hi)
  have e2 := h2 (i + 1) calls[i + 1] (List.getElem?_eq_getElem hi1)
  rw [ha] at e1
  rw [hb] at e2
  cases e1
  cases e2
  refine ⟨v + ((i : Int) + 1), v + (((i + 1 : Nat) : Int) + 1), CounterOut_int_ofCall _ _,
    CounterOut_int_ofCall _ _, ?_⟩
  push_cast
  omega

/-- C7, amended, witness: three calls from `Value = 41`. -/
theorem CounterType_increment_witness :
    (CounterType.run false (fun (r : Unit) => ((0 : Int), r))
        [.GenValue, .GenJSONValue, .GenValue] ⟨41⟩ ()).2.1.Value = 41 + 3 :=
  (CounterType_increment (fun (r : Unit) => ((0 : Int), r))
    [.GenValue, .GenJSONValue, .GenValue] 41 () (by norm_num) (by norm_num)).2.2.2.1

/-- C5: the code returns `float64(2 xor 64) = 66` for every counter and range
config, not the size `2^64` of the 64-bit range. -/
theorem CounterType_ValueVariationsNumber_is_66 :
    (∀ (P : Type) (ct : CounterType) (p : P),
      CounterType.ValueVariationsNumber ct p = F64.ofNat 66) ∧
    F64.ofNat 66 ≠ F64.ofNat 18446744073709551616 ∧
    (2 : Nat) ^ 64 = 18446744073709551616 := by
  refine ⟨fun P ct p => ?_, by decide!, by norm_num⟩
  show F64.ofNat (2 ^^^ 64) = F64.ofNat 66
  decide

/-- C10: the code returns the entry of `goCQLTypeMap` under `gocql.TypeMap` for a
counter, the very value `MapType.CQLType` returns, and not the entry under
`gocql.TypeCounter`. -/
theorem CounterType_CQLType_is_map_entry :
    ∀ (proto : Nat) (ct : CounterType) (mt : MapType),
      CounterType.CQLType proto ct = MapType.CQLType proto mt ∧
      CounterType.CQLType proto ct = some (NewNativeType proto .TypeMap "") ∧
      mapIndex (goCQLTypeMap proto) .TypeCounter = some (NewNativeType proto .TypeCounter "") ∧
      CounterType.CQLType proto ct ≠ mapIndex (goCQLTypeMap proto) .TypeCounter := by
  intro proto ct mt
  refine ⟨rfl, rfl, rfl, ?_⟩
  intro h
  have h1 : CounterType.CQLType proto ct = some (NewNativeType proto .TypeMap "") := rfl
  have h2 : mapIndex (goCQLTypeMap proto) .TypeCounter
      = some (NewNativeType proto .TypeCounter "") := rfl
  rw [h1, h2] at h
  simp [NewNativeType] at h

/-! ## `createGenerators` -/

theorem createGeneratorsLoop_error {σ τ C P δ ε L γ : Type}
    (env : GenEnv σ τ C P δ ε L γ) (g : Globals) (prc : P)
    (seed ds : Nat) (logger : L) (table : τ) (rest : List τ) (gs : List γ) (w w1 : σ) (e : ε)
    (h : env.createDistributionFunc w g.partitionKeyDistribution g.partitionCount seed
      g.stdDistMean g.oneStdDev = (.error e, w1)) :
    createGeneratorsLoop env g prc seed ds logger (table :: rest) gs w = (([], some e), w1) := by
  simp only [createGeneratorsLoop, h]

theorem createGeneratorsLoop_ok {σ τ C P δ ε L γ : Type}
    (env : GenEnv σ τ C P δ ε L γ) (g : Globals) (prc : P)
    (seed ds : Nat) (logger : L) (table : τ) (rest : List τ) (gs : List γ) (w w1 : σ) (d : δ)
    (h : env.createDistributionFunc w g.partitionKeyDistribution g.partitionCount seed
      g.stdDistMean g.oneStdDev = (.ok d, w1)) :
    createGeneratorsLoop env g prc seed ds logger (table :: rest) gs w
      = createGeneratorsLoop env g prc seed ds logger rest
          (gs ++ [(env.NewGenerator w1 table
            { PartitionsRangeConfig := prc, PartitionsCount := ds,
              PartitionsDistributionFunc := d, Seed := seed,
              PkUsedBufferSize := g.pkBufferReuseSize } (env.Named logger "generators")).1])
          (env.NewGenerator w1 table
            { PartitionsRangeConfig := prc, PartitionsCount := ds,
              PartitionsDistributionFunc := d, Seed := seed,
              PkUsedBufferSize := g.pkBufferReuseSize } (env.Named logger "generators")).2 := by
  simp only [createGeneratorsLoop, h]

theorem createGeneratorsLoop_error_nil {σ τ C P δ ε L γ : Type}
    (env : GenEnv σ τ C P δ ε L γ) (g : Globals) (prc : P)
    (seed ds : Nat) (logger : L) (tables : List τ) :
    ∀ (gs : List γ) (w : σ) (e : ε),
      (createGeneratorsLoop env g prc seed ds logger tables gs w).1.2 = some e →
      (createGeneratorsLoop env g prc seed ds logger tables gs w).1.1 = [] := by
  induction tables with
  | nil => intro gs w e h; simp [createGeneratorsLoop] at h
  | cons t rest ih =>
    intro gs w e h
    cases hcd : env.createDistributionFunc w g.partitionKeyDistribution g.partitionCount seed
        g.stdDistMean g.oneStdDev with
    | mk res w1 =>
      cases res with
      | error e1 =>
        rw [createGeneratorsLoop_error env g prc seed ds logger t rest gs w w1 e1 hcd]
      | ok d =>
        rw [createGeneratorsLoop_ok env g prc seed ds logger t rest gs w w1 d hcd] at h ⊢
        exact ih _ _ e h

theorem createGeneratorsLoop_success {σ τ C P δ ε L γ : Type}
    (env : GenEnv σ τ C P δ ε L γ) (g : Globals) (prc : P)
    (seed ds : Nat) (logger : L) (tables : List τ) :
    ∀ (gs : List γ) (w : σ),
      (createGeneratorsLoop env g prc seed ds logger tables gs w).1.2 = none →
      ∃ new : List γ,
        (createGeneratorsLoop env g prc seed ds logger tables gs w).1.1 = gs ++ new ∧
        new.length = tables.length ∧
        ∀ (i : Nat) (t : τ), tables[i]? = some t →
          ∃ (w0 w1 : σ) (d : δ),
            env.createDistributionFunc w0 g.partitionKeyDistribution g.partitionCount seed
              g.stdDistMean g.oneStdDev = (.ok d, w1) ∧
            new[i]? = some (env.NewGenerator w1 t
            { PartitionsRangeConfig := prc, PartitionsCount := ds,
              PartitionsDistributionFunc := d, Seed := seed,
              PkUsedBufferSize := g.pkBufferReuseSize } (env.Named logger "generators")).1 := by
  induction tables with
  | nil =>
    intro gs w _
    exact ⟨[], by simp [createGeneratorsLoop], rfl, by simp⟩
  | cons t rest ih =>
    intro gs w h
    cases hcd : env.createDistributionFunc w g.partitionKeyDistribution g.partitionCount seed
        g.stdDistMean g.oneStdDev with
    | mk res w1 =>
      cases res with
      | error e1 =>
        rw [createGeneratorsLoop_error env g prc seed ds logger t rest gs w w1 e1 hcd] at h
        simp at h
      | ok d =>
        rw [createGeneratorsLoop_ok env g prc seed ds logger t rest gs w w1 d hcd] at h ⊢
        obtain ⟨new, h1, h2, h3⟩ := ih _ _ h
        refine ⟨(env.NewGenerator w1 t
            { PartitionsRangeConfig := prc, PartitionsCount := ds,
              PartitionsDistributionFunc := d, Seed := seed,
              PkUsedBufferSize := g.pkBufferReuseSize } (env.Named logger "generators")).1 :: new,
          by rw [h1]; simp, by simp [h2], ?_⟩
        intro i u hu
        cases i with
        | zero =>
          simp only [List.getElem?_cons_zero, Option.some.injEq] at hu
          subst hu
          exact ⟨w, w1, d, hcd, by simp⟩
        | succ i =>
          simp only [List.getElem?_cons_succ] at hu ⊢
          exact h3 i u hu

theorem createGeneratorsLoop_cases {σ τ C P δ ε L γ : Type}
    (env : GenEnv σ τ C P δ ε L γ) (g : Globals) (prc : P)
    (seed ds : Nat) (logger : L) (tables : List τ) :
    ∀ (gs : List γ) (w : σ),
      (createGeneratorsLoop env g prc seed ds logger tables gs w).1.2 = none ∨
      ∃ (pre : List τ) (t : τ) (post : List τ) (e : ε),
        tables = pre ++ t :: post ∧
        (createGeneratorsLoop env g prc seed ds logger pre gs w).1.2 = none ∧
        (env.createDistributionFunc (createGeneratorsLoop env g prc seed ds logger pre gs w).2
          g.partitionKeyDistribution g.partitionCount seed g.stdDistMean g.oneStdDev).1
            = .error e ∧
        (createGeneratorsLoop env g prc seed ds logger tables gs w).1 = ([], some e) := by
  induction tables with
  | nil => intro gs w; left; simp [createGeneratorsLoop]
  | cons t rest ih =>
    intro gs w
    cases hcd : env.createDistributionFunc w g.partitionKeyDistribution g.partitionCount seed
        g.stdDistMean g.oneStdDev with
    | mk res w1 =>
      cases res with
      | error e1 =>
        right
        refine ⟨[], t, rest, e1, rfl, by simp [createGeneratorsLoop], ?_, ?_⟩
        · simp [createGeneratorsLoop, hcd]
        · rw [createGeneratorsLoop_error env g prc seed ds logger t rest gs w w1 e1 hcd]
      | ok d =>
        rw [createGeneratorsLoop_ok env g prc seed ds logger t rest gs w w1 d hcd]
        rcases ih _ _ with h | ⟨pre, u, post, e, h1, h2, h3, h4⟩
        · exact Or.inl h
        · right
          refine ⟨t :: pre, u, post, e, by rw [h1]; rfl, ?_, ?_, h4⟩
          · rw [createGeneratorsLoop_ok env g prc seed ds logger t pre gs w w1 d hcd]
            exact h2
          · rw [createGeneratorsLoop_ok env g prc seed ds logger t pre gs w w1 d hcd]
            exact h3

theorem createGeneratorsLoop_served {σ τ C P δ ε L γ : Type}
    (env : GenEnv σ τ C P δ ε L γ) (g : Globals) (prc : P)
    (seed ds : Nat) (logger : L) (w : σ) (tables : List τ) (gs : List γ) (w1 : σ)
    (h : TablesServed env g prc seed ds logger w tables gs w1) :
    ∀ (rest : List τ) (gs0 : List γ),
      createGeneratorsLoop env g prc seed ds logger (tables ++ rest) gs0 w
        = createGeneratorsLoop env g prc seed ds logger rest (gs0 ++ gs) w1 := by
  induction h with
  | nil w => intro rest gs0; simp
  | cons w wa wb wc table ts distFunc gen gs hd hn _ ih =>
    intro rest gs0
    rw [List.cons_append,
      createGeneratorsLoop_ok env g prc seed ds logger table (ts ++ rest) gs0 w wa distFunc hd,
      hn, ih rest (gs0 ++ [gen])]
    simp

theorem TablesServed_length {σ τ C P δ ε L γ : Type}
    (env : GenEnv σ τ C P δ ε L γ) (g : Globals) (prc : P)
    (seed ds : Nat) (logger : L) (w : σ) (tables : List τ) (gs : List γ) (w1 : σ)
    (h : TablesServed env g prc seed ds logger w tables gs w1) :
    gs.length = tables.length := by
  induction h with
  | nil w => rfl
  | cons w wa wb wc table ts distFunc gen gs _ _ _ ih => simp [ih]

theorem TablesServed_or_fails {σ τ C P δ ε L γ : Type}
    (env : GenEnv σ τ C P δ ε L γ) (g : Globals) (prc : P)
    (seed ds : Nat) (logger : L) (tables : List τ) :
    ∀ (w : σ),
      (∃ (gs : List γ) (w1 : σ), TablesServed env g prc seed ds logger w tables gs w1) ∨
      ∃ (pre : List τ) (t : τ) (post : List τ) (gs : List γ) (w1 : σ) (e : ε) (w2 : σ),
        tables = pre ++ t :: post ∧
        TablesServed env g prc seed ds logger w pre gs w1 ∧
        env.createDistributionFunc w1 g.partitionKeyDistribution g.partitionCount seed
          g.stdDistMean g.oneStdDev = (.error e, w2) := by
  induction tables with
  | nil => intro w; exact Or.inl ⟨[], w, TablesServed.nil w⟩
  | cons t rest ih =>
    intro w
    cases hcd : env.createDistributionFunc w g.partitionKeyDistribution g.partitionCount seed
        g.stdDistMean g.oneStdDev with
    | mk res wa =>
      cases res with
      | error e =>
        exact Or.inr ⟨[], t, rest, [], w, e, wa, rfl, TablesServed.nil w, hcd⟩
      | ok d =>
        cases hn : env.NewGenerator wa t
            { PartitionsRangeConfig := prc, PartitionsCount := ds,
              PartitionsDistributionFunc := d, Seed := seed,
              PkUsedBufferSize := g.pkBufferReuseSize } (env.Named logger "generators") with
        | mk gen wb =>
          rcases ih wb with ⟨gs, w1, hs⟩ | ⟨pre, u, post, gs, w1, e, w2, h1, h2, h3⟩
          · exact Or.inl ⟨gen :: gs, w1, TablesServed.cons w wa wb w1 t rest d gen gs hcd hn hs⟩
          · exact Or.inr ⟨t :: pre, u, post, gen :: gs, w1, e, w2, by rw [h1]; rfl,
              TablesServed.cons w wa wb w1 t pre d gen gs hcd hn h2, h3⟩

/-- C8. `createGenerators` allows no partial success.  Tables are served one at a
time (`TablesServed`: `createDistributionFunc` succeeds in the current world and
`NewGenerator` is then called on that table with the config built from it).  If
the tables before some table are served and `createDistributionFunc` then fails
for that table, `createGenerators` returns that error with a nil collection, in
the world the failing call left: none of the generators already made is handed
back.  If every table is served, it returns a nil error with exactly the
generators so made, one per table in table order.  One of the two always
happens, and an error never comes with a non-nil collection. -/
theorem createGenerators_no_partial_success {σ τ C P δ ε L γ : Type}
    (env : GenEnv σ τ C P δ ε L γ) (g : Globals) (w : σ) (schema : Schema τ)
    (schemaConfig : C) (seed distributionSize : Nat) (logger : L) :
    (∀ (pre : List τ) (t : τ) (post : List τ) (gs : List γ) (w1 : σ) (e : ε) (w2 : σ),
      schema.Tables = pre ++ t :: post →
      TablesServed env g (env.GetPartitionRangeConfig schemaConfig) seed distributionSize
        logger w pre gs w1 →
      env.createDistributionFunc w1 g.partitionKeyDistribution g.partitionCount seed
        g.stdDistMean g.oneStdDev = (.error e, w2) →
      createGenerators env g w schema schemaConfig seed distributionSize logger
        = (([], some e), w2)) ∧
    (∀ (gs : List γ) (w1 : σ),
      TablesServed env g (env.GetPartitionRangeConfig schemaConfig) seed distributionSize
        logger w schema.Tables gs w1 →
      createGenerators env g w schema schemaConfig seed distributionSize logger
        = ((gs, none), w1) ∧ gs.length = schema.Tables.length) ∧
    ((∃ (gs : List γ) (w1 : σ),
        TablesServed env g (env.GetPartitionRangeConfig schemaConfig) seed distributionSize
          logger w schema.Tables gs w1) ∨
      ∃ (pre : List τ) (t : τ) (post : List τ) (gs : List γ) (w1 : σ) (e : ε) (w2 : σ),
        schema.Tables = pre ++ t :: post ∧
        TablesServed env g (env.GetPartitionRangeConfig schemaConfig) seed distributionSize
          logger w pre gs w1 ∧
        env.createDistributionFunc w1 g.partitionKeyDistribution g.partitionCount seed
          g.stdDistMean g.oneStdDev = (.error e, w2)) ∧
    (∀ e, (createGenerators env g w schema schemaConfig seed distributionSize logger).1.2
        = some e →
      (createGenerators env g w schema schemaConfig seed distributionSize logger).1.1 = []) := by
  refine ⟨?_, ?_, ?_, ?_⟩
  · intro pre t post gs w1 e w2 hT hs hfail
    unfold createGenerators
    rw [hT, createGeneratorsLoop_served env g _ seed distributionSize logger w pre gs w1 hs
      (t :: post) []]
    exact createGeneratorsLoop_error env g _ seed distributionSize logger t post _ w1 w2 e hfail
  · intro gs w1 hs
    refine ⟨?_, TablesServed_length env g _ seed distributionSize logger w _ gs w1 hs⟩
    unfold createGenerators
    have h := createGeneratorsLoop_served env g _ seed distributionSize logger w
      schema.Tables gs w1 hs [] []
    rw [List.append_nil] at h
    rw [h]
    simp [createGeneratorsLoop]
  · exact TablesServed_or_fails env g _ seed distributionSize logger schema.Tables w
  · intro e h
    exact createGeneratorsLoop_error_nil env g _ seed distributionSize logger _ _ _ e h

/-- C8, witness: three tables, the distribution function failing for the third
one after two generators have been made; the error comes back with a nil
collection. -/
theorem createGenerators_no_partial_success_witness :
    createGenerators (failingEnv 2) ⟨"zipf", 100, F64.ofNat 1, F64.ofNat 1, 10⟩ 0
        ⟨["t1", "t2", "t3"]⟩ () 42 100 ()
      = (([], some "unsupported distribution"), 3) :=
  (createGenerators_no_partial_success (failingEnv 2)
    ⟨"zipf", 100, F64.ofNat 1, F64.ofNat 1, 10⟩ 0 ⟨["t1", "t2", "t3"]⟩ () 42 100 ()).1
    ["t1", "t2"] "t3" [] _ 2 "unsupported distribution" 3 rfl
    (TablesServed.cons 0 1 1 2 "t1" ["t2"] _ _ _ rfl rfl
      (TablesServed.cons 1 2 2 2 "t2" [] _ _ _ rfl rfl (TablesServed.nil 2)))
    rfl

/-- C9: the code builds every table's distribution function with the
package variable `partitionCount` and stores the parameter `distributionSize` as
`PartitionsCount` (the seed is the same in both): in every generator handed back
the two counts are `g.partitionCount` and `distributionSize`, and a call with
`partitionCount = 100` and `distributionSize = 1000` gives a generator whose
sampler is built over 100 partitions and whose config says 1000. -/
theorem createGenerators_partitions_count_mismatch :
    (∀ (g : Globals) (tables : List String) (seed distributionSize : Nat)
        (x : String × Config Unit DistCall),
      x ∈ (createGenerators recordingEnv g () ⟨tables⟩ () seed distributionSize ()).1.1 →
        x.2.PartitionsCount = distributionSize ∧
        x.2.PartitionsDistributionFunc.size = g.partitionCount ∧
        x.2.Seed = seed ∧ x.2.PartitionsDistributionFunc.seed = seed) ∧
    (createGenerators recordingEnv ⟨"uniform", 100, F64.ofNat 1, F64.ofNat 1, 10⟩ ()
        ⟨["t1"]⟩ () 42 1000 ()).1.1.map
      (fun x => (x.2.PartitionsDistributionFunc.size, x.2.PartitionsCount)) = [(100, 1000)] := by
  refine ⟨?_, by decide⟩
  intro g tables seed ds x hx
  have hnone : (createGenerators recordingEnv g () ⟨tables⟩ () seed ds ()).1.2 = none := by
    unfold createGenerators
    rcases createGeneratorsLoop_cases recordingEnv g () seed ds () tables [] ()
      with h | ⟨pre, t, post, e, _, _, h3, _⟩
    · exact h
    · simp [recordingEnv] at h3
  unfold createGenerators at hx hnone
  obtain ⟨new, h1, _, h3⟩ :=
    createGeneratorsLoop_success recordingEnv g () seed ds () tables [] () hnone
  rw [h1, List.nil_append] at hx
  obtain ⟨i, hi, hxi⟩ := List.getElem_of_mem hx
  have hlt : i < tables.length := by omega
  obtain ⟨w0, w1, d, hd, hn⟩ := h3 i tables[i] (List.getElem?_eq_getElem hlt)
  rw [List.getElem?_eq_getElem hi, hxi] at hn
  simp only [recordingEnv, Prod.mk.injEq, Except.ok.injEq] at hd
  obtain ⟨hd, _⟩ := hd
  simp only [recordingEnv, Option.some.injEq] at hn
  subst hn
  subst hd
  exact ⟨rfl, rfl, rfl, rfl⟩

/-! ## `MapType.ValueVariationsNumber` -/

theorem vvn_exact_small :
    ∀ k : Fin 40, ∀ v : Fin 40, k.val * v.val < 40 →
      F64.powNat (F64.mul (F64.ofNat k.val) (F64.ofNat v.val)) 10
        = F64.ofNat ((k.val * v.val) ^ 10) := by
  decide!

theorem mul_lt_40_of_pow (k v : Nat) (h : (k * v) ^ 10 < 2 ^ 53) : k * v < 40 := by
  by_contra hge
  have h40 : 40 ≤ k * v := by omega
  have := Nat.pow_le_pow_left h40 10
  norm_num at this h
  omega

/-- C4. `MapType.ValueVariationsNumber` follows the cardinality formula: with
`Kc` and `Vc` the value-space sizes of the key and value types under the range
config, it returns `(Kc * Vc) ^ maxMapSize` with `maxMapSize = 10`, product and
power being those of `float64`; `Kc = 4`, `Vc = 3` gives exactly
`12^10 = 61917364224`, and so does every pair of positive integer sizes whose
`(Kc * Vc)^10` is below `2^53`: the result is that integer, exactly. -/
theorem MapType_ValueVariationsNumber_formula {P : Type} (simpleVariations : SimpleType → P → F64)
    (mt : MapType) (p : P) (Kc Vc : F64)
    (hK : simpleVariations mt.KeyType p = Kc) (hV : simpleVariations mt.ValueType p = Vc) :
    MapType.ValueVariationsNumber simpleVariations mt p = F64.powNat (F64.mul Kc Vc) maxMapSize ∧
    maxMapSize = 10 ∧
    (Kc = F64.ofNat 4 → Vc = F64.ofNat 3 →
      MapType.ValueVariationsNumber simpleVariations mt p = F64.ofNat 61917364224) ∧
    (12 : Nat) ^ 10 = 61917364224 ∧
    (∀ k v : Nat, Kc = F64.ofNat k → Vc = F64.ofNat v → 0 < k * v → (k * v) ^ 10 < 2 ^ 53 →
      MapType.ValueVariationsNumber simpleVariations mt p = F64.ofNat ((k * v) ^ 10)) := by
  have hgen : ∀ k v : Nat, Kc = F64.ofNat k → Vc = F64.ofNat v → 0 < k * v →
      (k * v) ^ 10 < 2 ^ 53 →
      MapType.ValueVariationsNumber simpleVariations mt p = F64.ofNat ((k * v) ^ 10) := by
    intro k v hk hv hpos hlt
    have h40 := mul_lt_40_of_pow k v hlt
    have hk1 : 0 < k := Nat.pos_of_mul_pos_right hpos
    have hv1 : 0 < v := Nat.pos_of_mul_pos_left hpos
    have hk40 : k < 40 := lt_of_le_of_lt (Nat.le_mul_of_pos_right k hv1) h40
    have hv40 : v < 40 := lt_of_le_of_lt (Nat.le_mul_of_pos_left v hk1) h40
    unfold MapType.ValueVariationsNumber
    rw [hK, hV, hk, hv]
    exact vvn_exact_small ⟨k, hk40⟩ ⟨v, hv40⟩ h40
  refine ⟨by unfold MapType.ValueVariationsNumber; rw [hK, hV], rfl, ?_, by norm_num, hgen⟩
  intro h4 h3
  exact hgen 4 3 h4 h3 (by norm_num) (by norm_num)

/-- C4, witness: a key type of size 4 and a value type of size 3. -/
theorem MapType_ValueVariationsNumber_formula_witness :
    MapType.ValueVariationsNumber (fun (t : SimpleType) (_ : Unit) => F64.ofNat t.length)
      ⟨"map", "text", "int", false⟩ () = F64.ofNat 61917364224 :=
  (MapType_ValueVariationsNumber_formula (fun (t : SimpleType) (_ : Unit) => F64.ofNat t.length)
    ⟨"map", "text", "int", false⟩ () (F64.ofNat 4) (F64.ofNat 3) rfl rfl).2.2.1 rfl rfl

end Gemini
